import Mathlib

/-!
Verification development for the moe policy-snapshot engine.

The Go sources are shallowly embedded: pure functions become Lean
functions, JSON values decoded by `encoding/json` into `interface{}`
are modelled by the inductive `JValue` (objects as association lists,
numbers as rationals standing for the decoded `float64`), and
stateful orchestration code becomes explicit state passing.  Fields of
type `string` holding serialised JSON (`SettingsJSON` and friends) are
modelled by their decoded `JValue`; a string that fails to decode as an
object behaves exactly like `JValue.null` in every embedded code path
(`parseSettingsMap` returns the empty map for it), so no behaviour is
lost by this identification.
-/

set_option linter.unusedVariables false

namespace Moe

/-- Model of a decoded JSON value (Go `interface{}` produced by
`encoding/json`): `nil`, `bool`, `float64` (as a rational), `string`,
`[]interface{}` and `map[string]interface{}` (as an association list;
Go maps obtained from JSON decoding have distinct keys, and lookups are
modelled last-entry-wins to match successive map insertion). -/
inductive JValue where
  | null
  | bool (b : Bool)
  | num (q : Rat)
  | str (s : String)
  | arr (elems : List JValue)
  | obj (fields : List (String × JValue))

/-- Substring occurrence over character lists (helper for
`strContains`). -/
def containsAux (pat : List Char) : List Char → Bool
  | [] => pat.isEmpty
  | c :: rest => pat.isPrefixOf (c :: rest) || containsAux pat rest

/-- Go `strings.Contains`. -/
def strContains (s pat : String) : Bool :=
  containsAux pat.toList s.toList

/-- Go `strings.HasPrefix` (character-level definition). -/
def strStartsWith (s pre : String) : Bool :=
  pre.toList.isPrefixOf s.toList

/-- Go `strings.ToLower` (ASCII case folding suffices for every string
the source compares). -/
def strToLower (s : String) : String :=
  String.mk (s.toList.map Char.toLower)

/-- Split a character list at a separator (helper for `strSplitOn`). -/
def splitCharsAux (sep : Char) : List Char → List Char → List (List Char)
  | [], acc => [acc.reverse]
  | c :: rest, acc =>
    if c = sep then acc.reverse :: splitCharsAux sep rest []
    else splitCharsAux sep rest (c :: acc)

/-- Go `strings.Split` with a one-character separator. -/
def strSplitOn (t : String) (sep : Char) : List String :=
  (splitCharsAux sep t.toList []).map String.mk

/-- Insert into a list sorted by `le` (helper for `sortBy`). -/
def insertSorted (le : α → α → Bool) (x : α) : List α → List α
  | [] => [x]
  | y :: ys => if le x y then x :: y :: ys else y :: insertSorted le x ys

/-- Insertion sort; models the Go `sort` package calls.  (`sort.Slice`
is unstable, so the order among comparator-equal elements is
unspecified in Go; any sorted arrangement is a faithful model.) -/
def sortBy (le : α → α → Bool) : List α → List α
  | [] => []
  | x :: xs => insertSorted le x (sortBy le xs)

theorem mem_insertSorted (le : α → α → Bool) (x a : α) (l : List α) :
    a ∈ insertSorted le x l ↔ a = x ∨ a ∈ l := by
  induction l with
  | nil => simp [insertSorted]
  | cons y ys ih =>
    simp only [insertSorted]
    by_cases h : le x y = true
    · simp [h]
    · simp [h, ih]
      tauto

theorem mem_sortBy (le : α → α → Bool) (a : α) (l : List α) :
    a ∈ sortBy le l ↔ a ∈ l := by
  induction l with
  | nil => simp [sortBy]
  | cons x xs ih => simp [sortBy, mem_insertSorted, ih]

/-- Lookup in a Go map modelled as an association list: the last
binding for a key wins, matching successive `m[k] = v` insertion. -/
def objLookup (fields : List (String × JValue)) (k : String) : Option JValue :=
  (fields.reverse.find? (fun p => p.1 == k)).map (fun p => p.2)

/-- Go `parseSettingsMap` (policies.go): `json.Unmarshal` of the blob
into `map[string]interface{}`; any non-object input yields the empty
map. -/
def parseSettingsMap : JValue → List (String × JValue)
  | .obj fields => fields
  | _ => []

/-- Integer rendering used for whole-valued numbers (Go
`fmt.Sprintf("%d", int64(val))`). -/
def intText (i : Int) : String := toString i

/-- Go `fmt.Sprintf("%g", val)` for non-whole `float64` values (never
exercised by any claim; an exact-value rendering is used). -/
def formatFloatG (q : Rat) : String :=
  intText q.num ++ "/" ++ toString q.den

mutual

/-- Go `json.Marshal` on a decoded value: canonical serialization used
by `formatSettingValue` for nested structures.  (Go marshals map keys
in sorted order; model field order is arbitrary to begin with and no
claim inspects this text, so fields are rendered in list order.) -/
def jsonMarshal : JValue → String
  | .null => "null"
  | .bool b => if b then "true" else "false"
  | .num q => if q.den = 1 then intText q.num else formatFloatG q
  | .str s => "\"" ++ s ++ "\""
  | .arr xs => "[" ++ jsonMarshalList xs ++ "]"
  | .obj fs => "\x7b" ++ jsonMarshalFields fs ++ "\x7d"

def jsonMarshalList : List JValue → String
  | [] => ""
  | [x] => jsonMarshal x
  | x :: y :: xs => jsonMarshal x ++ "," ++ jsonMarshalList (y :: xs)

def jsonMarshalFields : List (String × JValue) → String
  | [] => ""
  | [p] => "\"" ++ p.1 ++ "\":" ++ jsonMarshal p.2
  | p :: q :: xs => "\"" ++ p.1 ++ "\":" ++ jsonMarshal p.2 ++ "," ++ jsonMarshalFields (q :: xs)

end

/-- Go `formatSettingValue` (policies.go).  The argument is the result
of a map lookup: `none` models a missing key, which in Go is the `nil`
interface, indistinguishable from a decoded JSON `null`. -/
def formatSettingValue : Option JValue → String
  | none => ""
  | some .null => ""
  | some (.str s) => s
  | some (.bool b) => if b then "true" else "false"
  | some (.num q) => if q.den = 1 then intText q.num else formatFloatG q
  | some (.arr xs) => jsonMarshal (.arr xs)
  | some (.obj fs) => jsonMarshal (.obj fs)

/-- Go `SettingDiff` (policies.go). -/
structure SettingDiff where
  name : String
  leftValue : String
  rightValue : String
  changed : Bool
  deriving DecidableEq

/-- Formatted value of key `k` in a settings map (Go
`formatSettingValue(leftMap[k])`). -/
def fmtAt (m : List (String × JValue)) (k : String) : String :=
  formatSettingValue (objLookup m k)

/-- Go `diffSettings` (policies.go): union of both keysets, sorted;
one `SettingDiff` per key; `allMatch` is true when no key changed. -/
def diffSettings (leftJSON rightJSON : JValue) : List SettingDiff × Bool :=
  let leftMap := parseSettingsMap leftJSON
  let rightMap := parseSettingsMap rightJSON
  let keys := sortBy (fun a b => decide (a ≤ b))
    ((leftMap.map Prod.fst ++ rightMap.map Prod.fst).dedup)
  let diffs := keys.map (fun k =>
    { name := k
      leftValue := fmtAt leftMap k
      rightValue := fmtAt rightMap k
      changed := fmtAt leftMap k != fmtAt rightMap k })
  (diffs, diffs.all (fun d => !d.changed))

/-- Go `models.PolicyItem` (models.go), restricted to the fields the
engine reads; `SettingsJSON` is modelled by its decoded value. -/
structure PolicyItem where
  category : String
  sourceID : String
  policyName : String
  policyType : String
  platform : String
  description : String
  settingsJSON : JValue

/-- Composite diff key (Go local type `policyKey` in `computeDiff`). -/
structure PolicyKey where
  name : String
  category : String
  policyType : String
  platform : String
  deriving DecidableEq

/-- Key of a policy item (Go `policyKey{...}` construction). -/
def policyKey (x : PolicyItem) : PolicyKey :=
  ⟨x.policyName, x.category, x.policyType, x.platform⟩

/-- Lookup in the Go map built by iterating items and inserting by key
(`rightIndex[key] = item`): the last item with the key wins. -/
def lookupLast (items : List PolicyItem) (k : PolicyKey) : Option PolicyItem :=
  items.reverse.find? (fun x => decide (policyKey x = k))

/-- Go `CompareStats` (policies.go). -/
structure CompareStats where
  matching : Nat
  different : Nat
  leftOnly : Nat
  rightOnly : Nat
  deriving DecidableEq

/-- Go `PolicySetting` view model (policies.go). -/
structure PolicySetting where
  name : String
  value : String
  deriving DecidableEq

/-- Go `PolicyDiff` (policies.go). -/
structure PolicyDiff where
  policyName : String
  category : String
  platform : String
  status : String
  settingDiffs : List SettingDiff
  settings : List PolicySetting
  deriving DecidableEq

/-- Go `formatValue` (part_005): display string of one decoded value;
identical casing to `formatSettingValue` with `MarshalIndent` in the
default branch (modelled by the same canonical serialization). -/
def formatValue : JValue → String
  | .null => ""
  | .bool b => if b then "true" else "false"
  | .num q => if q.den = 1 then intText q.num else formatFloatG q
  | .str s => s
  | .arr xs => jsonMarshal (.arr xs)
  | .obj fs => jsonMarshal (.obj fs)

/-- Go `intune.FlattenSettings` (part_005): flatten a settings blob to
name/value pairs sorted by name; non-object input yields nil. -/
def flattenSettings : JValue → List (String × String)
  | .obj fields =>
      sortBy (fun a b => decide (a.1 < b.1))
        (fields.map (fun p => (p.1, formatValue p.2)))
  | _ => []

/-- Go `flattenToViewSettings` (policies.go). -/
def flattenToViewSettings (settings : JValue) : List PolicySetting :=
  (flattenSettings settings).map (fun p => { name := p.1, value := p.2 })

/-- Filter gate used when appending a diff (Go
`if filter == "" || filter == status`). -/
def filterAllows (filter status : String) : Bool :=
  filter == "" || filter == status

/-- Left pass of Go `computeDiff`: classify every left item against the
index of the right set, accumulating stats and (filtered) diff rows. -/
def processLeft (rightItems : List PolicyItem) (filter : String) :
    List PolicyItem → CompareStats × List PolicyDiff
  | [] => (⟨0, 0, 0, 0⟩, [])
  | x :: rest =>
    let res := processLeft rightItems filter rest
    match lookupLast rightItems (policyKey x) with
    | none =>
      let d : PolicyDiff :=
        { policyName := x.policyName, category := x.category
          platform := x.platform, status := "left-only"
          settingDiffs := [], settings := flattenToViewSettings x.settingsJSON }
      ({ res.1 with leftOnly := res.1.leftOnly + 1 },
        (if filterAllows filter "left-only" then [d] else []) ++ res.2)
    | some right =>
      let sd := diffSettings x.settingsJSON right.settingsJSON
      if sd.2 then
        let d : PolicyDiff :=
          { policyName := x.policyName, category := x.category
            platform := x.platform, status := "matching"
            settingDiffs := sd.1, settings := [] }
        ({ res.1 with matching := res.1.matching + 1 },
          (if filterAllows filter "matching" then [d] else []) ++ res.2)
      else
        let d : PolicyDiff :=
          { policyName := x.policyName, category := x.category
            platform := x.platform, status := "different"
            settingDiffs := sd.1, settings := [] }
        ({ res.1 with different := res.1.different + 1 },
          (if filterAllows filter "different" then [d] else []) ++ res.2)

/-- Right pass of Go `computeDiff`: items of the right set whose key
was never marked during the left pass are `right-only`.  (The Go code
sets `matched[key] = true` for every left item, found or not, so the
marked set is exactly the set of left keys.) -/
def processRight (matchedKeys : List PolicyKey) (filter : String) :
    List PolicyItem → Nat × List PolicyDiff
  | [] => (0, [])
  | y :: rest =>
    let res := processRight matchedKeys filter rest
    if policyKey y ∈ matchedKeys then res
    else
      let d : PolicyDiff :=
        { policyName := y.policyName, category := y.category
          platform := y.platform, status := "right-only"
          settingDiffs := [], settings := flattenToViewSettings y.settingsJSON }
      (res.1 + 1, (if filterAllows filter "right-only" then [d] else []) ++ res.2)

/-- Go sort key for diff rows: status priority (`different`,
`left-only`, `right-only`, `matching`) then policy name. -/
def statusOrder (s : String) : Nat :=
  if s = "different" then 0
  else if s = "left-only" then 1
  else if s = "right-only" then 2
  else if s = "matching" then 3
  else 0

/-- Strict-before comparator used by the final `sort.Slice` of Go `computeDiff`,
relaxed to its reflexive closure for insertion sort. -/
def diffBefore (a b : PolicyDiff) : Bool :=
  if statusOrder a.status ≠ statusOrder b.status then
    decide (statusOrder a.status < statusOrder b.status)
  else decide (a.policyName ≤ b.policyName)

/-- Go `computeDiff` (policies.go): match two policy sets by composite
key, classify each entry, and sort the result rows. -/
def computeDiff (leftItems rightItems : List PolicyItem) (filter : String) :
    CompareStats × List PolicyDiff :=
  let left := processLeft rightItems filter leftItems
  let right := processRight (leftItems.map policyKey) filter rightItems
  ({ left.1 with rightOnly := right.1 }, sortBy diffBefore (left.2 ++ right.2))

/-! Lemmas about the diff engine. -/

theorem lookupLast_eq_none_iff (R : List PolicyItem) (k : PolicyKey) :
    lookupLast R k = none ↔ k ∉ R.map policyKey := by
  simp only [lookupLast, List.find?_eq_none, List.mem_reverse, decide_eq_true_eq,
    List.mem_map]
  constructor
  · rintro h ⟨x, hx, rfl⟩
    exact h x hx rfl
  · intro h x hx hk
    exact h ⟨x, hx, hk⟩

theorem lookupLast_some (R : List PolicyItem) (k : PolicyKey) (y : PolicyItem)
    (h : lookupLast R k = some y) : y ∈ R ∧ policyKey y = k := by
  have hmem := List.mem_of_find?_eq_some h
  have hp := List.find?_some h
  simp only [decide_eq_true_eq] at hp
  exact ⟨List.mem_reverse.mp hmem, hp⟩

theorem lookupLast_self (R : List PolicyItem) (hR : (R.map policyKey).Nodup)
    (y : PolicyItem) (hy : y ∈ R) : lookupLast R (policyKey y) = some y := by
  cases h : lookupLast R (policyKey y) with
  | none =>
    rw [lookupLast_eq_none_iff] at h
    exact absurd (List.mem_map_of_mem policyKey hy) h
  | some z =>
    obtain ⟨hz, hkey⟩ := lookupLast_some R (policyKey y) z h
    have := List.inj_on_of_nodup_map hR hz hy hkey
    rw [this]

theorem diffSettings_allMatch_iff (a b : JValue) :
    (diffSettings a b).2 = true ↔
      ∀ k ∈ (parseSettingsMap a).map Prod.fst ++ (parseSettingsMap b).map Prod.fst,
        fmtAt (parseSettingsMap a) k = fmtAt (parseSettingsMap b) k := by
  simp only [diffSettings, List.all_eq_true, List.mem_map]
  constructor
  · intro h k hk
    have hk2 : k ∈ sortBy (fun a b => decide (a ≤ b))
        (((parseSettingsMap a).map Prod.fst ++ (parseSettingsMap b).map Prod.fst).dedup) := by
      rw [mem_sortBy, List.mem_dedup]
      exact hk
    have := h _ ⟨k, hk2, rfl⟩
    simpa using this
  · rintro h d ⟨k, hk, rfl⟩
    rw [mem_sortBy, List.mem_dedup] at hk
    simpa using h k hk

theorem diffSettings_self (s : JValue) : (diffSettings s s).2 = true := by
  rw [diffSettings_allMatch_iff]
  intro k _
  rfl

theorem diffSettings_symm (a b : JValue) :
    (diffSettings a b).2 = (diffSettings b a).2 := by
  cases hab : (diffSettings a b).2 <;> cases hba : (diffSettings b a).2
  · rfl
  · exfalso
    have hforall := (diffSettings_allMatch_iff b a).mp hba
    have : (diffSettings a b).2 = true := by
      rw [diffSettings_allMatch_iff]
      intro k hk
      refine (hforall k ?_).symm
      rw [List.mem_append] at hk ⊢
      tauto
    rw [hab] at this
    exact Bool.false_ne_true this
  · exfalso
    have hforall := (diffSettings_allMatch_iff a b).mp hab
    have : (diffSettings b a).2 = true := by
      rw [diffSettings_allMatch_iff]
      intro k hk
      refine (hforall k ?_).symm
      rw [List.mem_append] at hk ⊢
      tauto
    rw [hba] at this
    exact Bool.false_ne_true this
  · rfl

/-- Settings comparison outcome between two matched items (the Boolean
`allMatch` that `computeDiff` branches on). -/
def settingsMatch (x y : PolicyItem) : Bool :=
  (diffSettings x.settingsJSON y.settingsJSON).2

theorem settingsMatch_symm (x y : PolicyItem) :
    settingsMatch x y = settingsMatch y x :=
  diffSettings_symm x.settingsJSON y.settingsJSON

/-- Classification helper: `g`-relation of a left item with its match
in `R`, false when unmatched. -/
def pairPred (g : PolicyItem → PolicyItem → Bool) (R : List PolicyItem)
    (x : PolicyItem) : Bool :=
  match lookupLast R (policyKey x) with
  | some y => g x y
  | none => false

theorem processLeft_matching (R : List PolicyItem) (f : String) (A : List PolicyItem) :
    (processLeft R f A).1.matching = (A.filter (pairPred settingsMatch R)).length := by
  induction A with
  | nil => rfl
  | cons x rest ih =>
    simp only [processLeft, List.filter_cons]
    cases h : lookupLast R (policyKey x) with
    | none => simp [pairPred, h, ih]
    | some y =>
      cases hm : (diffSettings x.settingsJSON y.settingsJSON).2 with
      | false => simp [pairPred, h, hm, settingsMatch, ih]
      | true => simp [pairPred, h, hm, settingsMatch, ih]

theorem processLeft_different (R : List PolicyItem) (f : String) (A : List PolicyItem) :
    (processLeft R f A).1.different =
      (A.filter (pairPred (fun x y => !settingsMatch x y) R)).length := by
  induction A with
  | nil => rfl
  | cons x rest ih =>
    simp only [processLeft, List.filter_cons]
    cases h : lookupLast R (policyKey x) with
    | none => simp [pairPred, h, ih]
    | some y =>
      cases hm : (diffSettings x.settingsJSON y.settingsJSON).2 with
      | false => simp [pairPred, h, hm, settingsMatch, ih]
      | true => simp [pairPred, h, hm, settingsMatch, ih]

theorem processLeft_leftOnly (R : List PolicyItem) (f : String) (A : List PolicyItem) :
    (processLeft R f A).1.leftOnly =
      (A.filter (fun x => (lookupLast R (policyKey x)).isNone)).length := by
  induction A with
  | nil => rfl
  | cons x rest ih =>
    simp only [processLeft, List.filter_cons]
    cases h : lookupLast R (policyKey x) with
    | none => simp [h, ih]
    | some y =>
      cases hm : (diffSettings x.settingsJSON y.settingsJSON).2 with
      | false => simp [h, hm, ih]
      | true => simp [h, hm, ih]

theorem processRight_count (K : List PolicyKey) (f : String) (B : List PolicyItem) :
    (processRight K f B).1 =
      (B.filter (fun y => !decide (policyKey y ∈ K))).length := by
  induction B with
  | nil => rfl
  | cons y rest ih =>
    simp only [processRight, List.filter_cons]
    by_cases h : policyKey y ∈ K
    · simp [h, ih]
    · simp [h, ih]

theorem filter_map_comm {α κ : Type} (g : α → κ) (p : α → Bool) (q : κ → Bool) :
    ∀ l : List α, (∀ x ∈ l, p x = q (g x)) → (l.filter p).map g = (l.map g).filter q := by
  intro l
  induction l with
  | nil => intro _; rfl
  | cons a l ih =>
    intro h
    have ha := h a (List.mem_cons_self a l)
    simp only [List.filter_cons, List.map_cons]
    cases hq : q (g a) with
    | false =>
      rw [ha, hq]
      simp only [Bool.false_eq_true, if_false]
      exact ih (fun x hx => h x (List.mem_cons_of_mem a hx))
    | true =>
      rw [ha, hq]
      simp only [if_true]
      rw [List.map_cons, ih (fun x hx => h x (List.mem_cons_of_mem a hx))]

theorem length_filter_eq_of_nodup {κ : Type} [DecidableEq κ]
    (l₁ l₂ : List κ) (q : κ → Bool) (h₁ : l₁.Nodup) (h₂ : l₂.Nodup)
    (hq : ∀ k, q k = true → k ∈ l₁ ∧ k ∈ l₂) :
    (l₁.filter q).length = (l₂.filter q).length := by
  have c1 : (l₁.filter q).length = (l₁.toFinset.filter (fun k => q k)).card := by
    rw [← List.toFinset_filter]
    exact (List.toFinset_card_of_nodup (h₁.filter q)).symm
  have c2 : (l₂.filter q).length = (l₂.toFinset.filter (fun k => q k)).card := by
    rw [← List.toFinset_filter]
    exact (List.toFinset_card_of_nodup (h₂.filter q)).symm
  rw [c1, c2]
  congr 1
  apply Finset.ext
  intro k
  simp only [Finset.mem_filter, List.mem_toFinset]
  constructor
  · rintro ⟨_, hk⟩
    exact ⟨(hq k hk).2, hk⟩
  · rintro ⟨_, hk⟩
    exact ⟨(hq k hk).1, hk⟩

/-- Key-level version of `pairPred`: relation of the (unique) items of
both sets carrying key `k`, false when either side lacks the key. -/
def keyPairPred (g : PolicyItem → PolicyItem → Bool)
    (X Y : List PolicyItem) (k : PolicyKey) : Bool :=
  match lookupLast X k, lookupLast Y k with
  | some x, some y => g x y
  | _, _ => false

theorem pairPred_eq_keyPairPred (g : PolicyItem → PolicyItem → Bool)
    (X Y : List PolicyItem) (hX : (X.map policyKey).Nodup)
    (x : PolicyItem) (hx : x ∈ X) :
    pairPred g Y x = keyPairPred g X Y (policyKey x) := by
  have hxa : lookupLast X (policyKey x) = some x := lookupLast_self X hX x hx
  cases hb : lookupLast Y (policyKey x) <;> simp [pairPred, keyPairPred, hxa, hb]

theorem keyPairPred_symm (g : PolicyItem → PolicyItem → Bool)
    (hg : ∀ x y, g x y = g y x) (X Y : List PolicyItem) (k : PolicyKey) :
    keyPairPred g Y X k = keyPairPred g X Y k := by
  cases hx : lookupLast X k <;> cases hy : lookupLast Y k <;>
    simp [keyPairPred, hx, hy, hg]

theorem keyPairPred_mem (g : PolicyItem → PolicyItem → Bool)
    (X Y : List PolicyItem) (k : PolicyKey)
    (h : keyPairPred g X Y k = true) :
    k ∈ X.map policyKey ∧ k ∈ Y.map policyKey := by
  cases hx : lookupLast X k with
  | none => simp [keyPairPred, hx] at h
  | some x =>
    cases hy : lookupLast Y k with
    | none => simp [keyPairPred, hx, hy] at h
    | some y =>
      obtain ⟨hxm, hxk⟩ := lookupLast_some X k x hx
      obtain ⟨hym, hyk⟩ := lookupLast_some Y k y hy
      exact ⟨hxk ▸ List.mem_map_of_mem policyKey hxm,
             hyk ▸ List.mem_map_of_mem policyKey hym⟩

theorem count_pair_symm (g : PolicyItem → PolicyItem → Bool)
    (hg : ∀ x y, g x y = g y x) (A B : List PolicyItem)
    (hA : (A.map policyKey).Nodup) (hB : (B.map policyKey).Nodup) :
    (A.filter (pairPred g B)).length = (B.filter (pairPred g A)).length := by
  have e1 : (A.filter (pairPred g B)).map policyKey =
      (A.map policyKey).filter (keyPairPred g A B) :=
    filter_map_comm policyKey _ _ A (fun x hx => pairPred_eq_keyPairPred g A B hA x hx)
  have e2 : (B.filter (pairPred g A)).map policyKey =
      (B.map policyKey).filter (keyPairPred g B A) :=
    filter_map_comm policyKey _ _ B (fun y hy => pairPred_eq_keyPairPred g B A hB y hy)
  have e2b : (B.map policyKey).filter (keyPairPred g B A) =
      (B.map policyKey).filter (keyPairPred g A B) := by
    have : keyPairPred g B A = keyPairPred g A B :=
      funext (fun k => keyPairPred_symm g hg A B k)
    rw [this]
  have lenA : (A.filter (pairPred g B)).length =
      ((A.map policyKey).filter (keyPairPred g A B)).length := by
    rw [← e1, List.length_map]
  have lenB : (B.filter (pairPred g A)).length =
      ((B.map policyKey).filter (keyPairPred g A B)).length := by
    rw [← e2b, ← e2, List.length_map]
  rw [lenA, lenB]
  exact length_filter_eq_of_nodup _ _ _ hA hB
    (fun k hk => keyPairPred_mem g A B k hk)

/-- C1: for policy-item sets whose composite keys (name, category,
type, platform) are unique within each set, `computeDiff` satisfies:
self-comparison gives one `matching` entry per key and nothing else;
comparison against the empty set classifies everything `left-only`;
and swapping the arguments swaps the `left-only`/`right-only` counts
while `matching`/`different` counts are unchanged. -/
theorem computeDiff_key_algebra (A B : List PolicyItem) (filter : String)
    (hA : (A.map policyKey).Nodup) (hB : (B.map policyKey).Nodup) :
    (computeDiff A A filter).1 = ⟨A.length, 0, 0, 0⟩ ∧
    (computeDiff A [] filter).1 = ⟨0, 0, A.length, 0⟩ ∧
    (computeDiff A B filter).1.leftOnly = (computeDiff B A filter).1.rightOnly ∧
    (computeDiff A B filter).1.rightOnly = (computeDiff B A filter).1.leftOnly ∧
    (computeDiff A B filter).1.matching = (computeDiff B A filter).1.matching ∧
    (computeDiff A B filter).1.different = (computeDiff B A filter).1.different := by
  have hswapLO : ∀ (X Y : List PolicyItem),
      (computeDiff X Y filter).1.leftOnly = (computeDiff Y X filter).1.rightOnly := by
    intro X Y
    show (processLeft Y filter X).1.leftOnly = (processRight (Y.map policyKey) filter X).1
    rw [processLeft_leftOnly, processRight_count]
    congr 1
    apply List.filter_congr
    intro x hx
    cases hb : lookupLast Y (policyKey x) with
    | none =>
      have := (lookupLast_eq_none_iff Y (policyKey x)).mp hb
      simp [this]
    | some y =>
      obtain ⟨hym, hyk⟩ := lookupLast_some Y (policyKey x) y hb
      have : policyKey x ∈ Y.map policyKey := hyk ▸ List.mem_map_of_mem policyKey hym
      simp [hb, this]
  refine ⟨?_, ?_, hswapLO A B, ?_, ?_, ?_⟩
  · -- comparing a set against itself
    have hm : (computeDiff A A filter).1.matching = A.length := by
      show (processLeft A filter A).1.matching = A.length
      rw [processLeft_matching]
      have hself : A.filter (pairPred settingsMatch A) = A := by
        rw [List.filter_eq_self]
        intro x hx
        simp [pairPred, lookupLast_self A hA x hx, settingsMatch, diffSettings_self]
      rw [hself]
    have hd : (computeDiff A A filter).1.different = 0 := by
      show (processLeft A filter A).1.different = 0
      rw [processLeft_different]
      have hnil : A.filter (pairPred (fun x y => !settingsMatch x y) A) = [] := by
        rw [List.filter_eq_nil_iff]
        intro x hx
        simp [pairPred, lookupLast_self A hA x hx, settingsMatch, diffSettings_self]
      rw [hnil]
      rfl
    have hl : (computeDiff A A filter).1.leftOnly = 0 := by
      show (processLeft A filter A).1.leftOnly = 0
      rw [processLeft_leftOnly]
      have hnil : A.filter (fun x => (lookupLast A (policyKey x)).isNone) = [] := by
        rw [List.filter_eq_nil_iff]
        intro x hx
        simp [lookupLast_self A hA x hx]
      rw [hnil]
      rfl
    have hr : (computeDiff A A filter).1.rightOnly = 0 := by
      show (processRight (A.map policyKey) filter A).1 = 0
      rw [processRight_count]
      have hnil : A.filter (fun y => !decide (policyKey y ∈ A.map policyKey)) = [] := by
        rw [List.filter_eq_nil_iff]
        intro x hx
        simp [List.mem_map_of_mem policyKey hx]
      rw [hnil]
      rfl
    have heta : (computeDiff A A filter).1 =
        ⟨(computeDiff A A filter).1.matching, (computeDiff A A filter).1.different,
         (computeDiff A A filter).1.leftOnly, (computeDiff A A filter).1.rightOnly⟩ := rfl
    rw [heta, hm, hd, hl, hr]
  · -- comparing against the empty set
    have hm : (computeDiff A [] filter).1.matching = 0 := by
      show (processLeft [] filter A).1.matching = 0
      rw [processLeft_matching]
      have hnil : A.filter (pairPred settingsMatch []) = [] := by
        rw [List.filter_eq_nil_iff]
        intro x hx
        simp [pairPred, lookupLast]
      rw [hnil]
      rfl
    have hd : (computeDiff A [] filter).1.different = 0 := by
      show (processLeft [] filter A).1.different = 0
      rw [processLeft_different]
      have hnil : A.filter (pairPred (fun x y => !settingsMatch x y) []) = [] := by
        rw [List.filter_eq_nil_iff]
        intro x hx
        simp [pairPred, lookupLast]
      rw [hnil]
      rfl
    have hl : (computeDiff A [] filter).1.leftOnly = A.length := by
      show (processLeft [] filter A).1.leftOnly = A.length
      rw [processLeft_leftOnly]
      have hself : A.filter (fun x => (lookupLast [] (policyKey x)).isNone) = A := by
        rw [List.filter_eq_self]
        intro x hx
        rfl
      rw [hself]
    have hr : (computeDiff A [] filter).1.rightOnly = 0 := rfl
    have heta : (computeDiff A [] filter).1 =
        ⟨(computeDiff A [] filter).1.matching, (computeDiff A [] filter).1.different,
         (computeDiff A [] filter).1.leftOnly, (computeDiff A [] filter).1.rightOnly⟩ := rfl
    rw [heta, hm, hd, hl, hr]
  · exact (hswapLO B A).symm
  · -- matching count is swap-invariant
    show (processLeft B filter A).1.matching = (processLeft A filter B).1.matching
    rw [processLeft_matching, processLeft_matching]
    exact count_pair_symm settingsMatch settingsMatch_symm A B hA hB
  · -- different count is swap-invariant
    show (processLeft B filter A).1.different = (processLeft A filter B).1.different
    rw [processLeft_different, processLeft_different]
    exact count_pair_symm (fun x y => !settingsMatch x y)
      (fun x y => by simp only [settingsMatch_symm x y]) A B hA hB

/-- Concrete policy items used to instantiate hypothesised theorems. -/
def witItemA : PolicyItem :=
  { category := "Compliance", sourceID := "a1", policyName := "Policy A"
    policyType := "typeA", platform := "Windows", description := ""
    settingsJSON := .obj [("x", .num 1)] }

/-- Second concrete policy item with a distinct composite key. -/
def witItemB : PolicyItem :=
  { category := "Compliance", sourceID := "b1", policyName := "Policy B"
    policyType := "typeB", platform := "iOS", description := ""
    settingsJSON := .obj [("x", .num 2)] }

/-- Witness for `computeDiff_key_algebra` at concrete inputs. -/
theorem computeDiff_key_algebra_witness :
    (computeDiff [witItemA, witItemB] [witItemA, witItemB] "").1 = ⟨2, 0, 0, 0⟩ ∧
    (computeDiff [witItemA, witItemB] [witItemB] "").1.leftOnly =
      (computeDiff [witItemB] [witItemA, witItemB] "").1.rightOnly :=
  ⟨(computeDiff_key_algebra [witItemA, witItemB] [witItemB] ""
      (by decide) (by decide)).1,
   (computeDiff_key_algebra [witItemA, witItemB] [witItemB] ""
      (by decide) (by decide)).2.2.1⟩

/-- C9: the two-snapshot "Require PIN" scenario: same key on both
sides, settings minLength 4 vs 6; the diff reports one `different`
policy with a single changed `SettingDiff` rendering the whole-valued
numbers as integer text. -/
theorem computeDiff_minLength_scenario :
    computeDiff
      [{ category := "Compliance", sourceID := "p1", policyName := "Require PIN"
         policyType := "", platform := "iOS", description := ""
         settingsJSON := .obj [("minLength", .num 4)] }]
      [{ category := "Compliance", sourceID := "p2", policyName := "Require PIN"
         policyType := "", platform := "iOS", description := ""
         settingsJSON := .obj [("minLength", .num 6)] }]
      "" =
    (⟨0, 1, 0, 0⟩,
     [{ policyName := "Require PIN", category := "Compliance", platform := "iOS"
        status := "different"
        settingDiffs := [{ name := "minLength", leftValue := "4", rightValue := "6", changed := true }]
        settings := [] }]) := by
  decide

/-! Policy normalizer (part_004 UTCM path, part_005 legacy path). -/

/-- Go `provider.SyncPolicy` (provider.go); `SettingsJSON` modelled by
its decoded value. -/
structure SyncPolicy where
  category : String
  sourceID : String
  policyName : String
  policyType : String
  platform : String
  description : String
  settingsJSON : JValue

/-- Go `stringField` (part_004): value of `key` when present, a string
and non-empty; a missing key, a non-string value (including JSON null)
or the empty string all yield `none`. -/
def stringField (m : List (String × JValue)) (key : String) : Option String :=
  match objLookup m key with
  | some (.str s) => if s = "" then none else some s
  | _ => none

/-- Go `guessPlatformFromUTCM` (part_004). -/
def guessPlatformFromUTCM (platform : String) : String :=
  let p := strToLower platform
  if strContains p "windows" then "Windows"
  else if strContains p "ios" then "iOS"
  else if strContains p "macos" then "macOS"
  else if strContains p "android" then "Android"
  else if strContains p "linux" then "Linux"
  else if strContains p "none" || strContains p "all" then "All"
  else ""

/-- Go `shortResourceType` (part_004): strip the `microsoft.intune.`
prefix. -/
def shortResourceType (rt : String) : String :=
  if strStartsWith rt "microsoft.intune." then String.mk (rt.toList.drop "microsoft.intune.".toList.length) else rt

/-- Go `utcmResource` metadata record (resource type, category,
default platform). -/
structure UtcmResource where
  resourceType : String
  category : String
  platform : String

/-- Internal keys stripped by Go `buildUTCMSettingsJSON` (part_004). -/
def utcmSkipKey (k : String) : Bool :=
  k == "@odata.type" || k == "@odata.context" || k == "Ensure"

/-- Go `buildUTCMSettingsJSON` (part_004): the full instance minus the
internal keys.  (The `json.MarshalIndent` error branch cannot fire for
a map decoded from JSON and is not modelled.) -/
def buildUTCMSettingsJSON (inst : List (String × JValue)) : JValue :=
  .obj (inst.filter (fun p => !utcmSkipKey p.1))

/-- Go `utcmInstanceToSyncPolicy` (part_004): map one UTCM resource
instance to a `SyncPolicy`, trying candidate fields in the order of
the source. -/
def utcmInstanceToSyncPolicy (inst : List (String × JValue)) (meta : UtcmResource) :
    SyncPolicy :=
  let policyName :=
    match stringField inst "DisplayName" with
    | some v => v
    | none =>
      match stringField inst "displayName" with
      | some v => v
      | none =>
        match stringField inst "Name" with
        | some v => v
        | none => ""
  let description :=
    match stringField inst "Description" with
    | some v => v
    | none =>
      match stringField inst "description" with
      | some v => v
      | none => ""
  let sourceID :=
    match stringField inst "Identity" with
    | some v => v
    | none =>
      match stringField inst "Id" with
      | some v => v
      | none =>
        match stringField inst "id" with
        | some v => v
        | none => ""
  let platform1 :=
    match stringField inst "Platform" with
    | some v => let g := guessPlatformFromUTCM v; if g != "" then g else meta.platform
    | none => meta.platform
  let platform2 :=
    match stringField inst "Platforms" with
    | some v => let g := guessPlatformFromUTCM v; if g != "" then g else platform1
    | none => platform1
  { category := meta.category
    sourceID := sourceID
    policyName := policyName
    policyType := shortResourceType meta.resourceType
    platform := platform2
    description := description
    settingsJSON := buildUTCMSettingsJSON inst }

/-- Go `guessPlatformFromField` (part_005). -/
def guessPlatformFromField (platforms : String) : String :=
  let p := strToLower platforms
  if p = "windows10" ∨ p = "windows10x" ∨ p = "windows10andlater" then "Windows"
  else if p = "ios" then "iOS"
  else if p = "macos" then "macOS"
  else if p = "android" ∨ p = "androidenterprise" ∨ p = "androidopensourceproject" then "Android"
  else if p = "linux" then "Linux"
  else ""

/-- Go `guessPlatform` (part_005): substring heuristics on the OData
type. -/
def guessPlatform (odataType category : String) : String :=
  let lower := strToLower odataType
  if strContains lower "windows" || strContains lower "win32" then "Windows"
  else if strContains lower "ios" || strContains lower "iphone" then "iOS"
  else if strContains lower "macos" || strContains lower "mac" then "macOS"
  else if strContains lower "android" then "Android"
  else ""

/-- Go `cleanODataType` (part_005): last dot-separated component. -/
def cleanODataType (t : String) : String :=
  if t = "" then ""
  else ((strSplitOn t '.').getLast?).getD t

/-- Meta keys stripped by Go `buildSettingsJSON` (part_005). -/
def legacySkipKey (k : String) : Bool :=
  k == "id" || k == "createdDateTime" || k == "lastModifiedDateTime" ||
  k == "version" || k == "roleScopeTagIds" || k == "creationSource"

/-- Keys kept by Go `buildSettingsJSON`: neither an OData/metadata
prefix nor a skipped meta key. -/
def legacyKeep (k : String) : Bool :=
  !(strStartsWith k "@odata" || strStartsWith k "@microsoft" || legacySkipKey k)

/-- Go `buildSettingsJSON` (part_005): the raw object minus OData
metadata and the fixed skip keys; a JSON null decodes to an empty map
(hence an empty object), any other non-object is returned as-is (the
unmarshal error branch returns the original blob). -/
def buildSettingsJSON : JValue → JValue
  | .obj fields => .obj (fields.filter (fun p => legacyKeep p.1))
  | .null => .obj []
  | v => v

/-- Decode a Go struct string field from a JSON object: missing key or
JSON null yield the zero value, a non-string value is an unmarshal
error. -/
def jsonStringField (fields : List (String × JValue)) (key : String) :
    Except String String :=
  match objLookup fields key with
  | none => .ok ""
  | some .null => .ok ""
  | some (.str s) => .ok s
  | some _ => .error ("cannot unmarshal field " ++ key)

/-- Field set of a JSON value decoded into a Go struct: object fields,
the empty set for null, an unmarshal error otherwise. -/
def objFieldsOf : JValue → Except String (List (String × JValue))
  | .obj fs => .ok fs
  | .null => .ok []
  | _ => .error "cannot unmarshal into struct"

/-- Go `parsePolicyItem` (part_005): extract the common fields, choose
the display name with fallback displayName, name, id, resolve the
platform with precedence platforms, platformType, OData-type guess,
and keep the cleaned full object as settings. -/
def parsePolicyItem (raw : JValue) (category : String) : Except String SyncPolicy :=
  match objFieldsOf raw with
  | .error e => .error e
  | .ok fs =>
    match jsonStringField fs "id", jsonStringField fs "displayName",
          jsonStringField fs "description", jsonStringField fs "@odata.type",
          jsonStringField fs "name", jsonStringField fs "platforms",
          jsonStringField fs "platformType" with
    | .ok id0, .ok displayName, .ok description, .ok odataType,
      .ok name0, .ok platforms, .ok platformType =>
      let name := if displayName != "" then displayName
        else if name0 != "" then name0 else id0
      let p1 := guessPlatformFromField platforms
      let p2 := if p1 != "" then p1 else guessPlatformFromField platformType
      let platform := if p2 != "" then p2 else guessPlatform odataType category
      .ok { category := category
            sourceID := id0
            policyName := name
            policyType := cleanODataType odataType
            platform := platform
            description := description
            settingsJSON := buildSettingsJSON raw }
    | _, _, _, _, _, _, _ =>
      -- Go surfaces the json.Unmarshal error of the mistyped field; the
      -- model collapses the message, keeping only ok/error behaviour.
      .error "cannot unmarshal policy item"

/-- C3 counterexample: an export-path instance whose only field is the
identifier `Id` is mapped to a record with an empty name — the UTCM
mapper never falls back to the identifier, contradicting the claim for
that normalization path. -/
theorem utcm_name_not_identifier :
    (utcmInstanceToSyncPolicy [("Id", .str "abc")]
      ⟨"microsoft.intune.examplePolicy", "Other", ""⟩).policyName = "" ∧
    stringField [("Id", .str "abc")] "Id" = some "abc" := by
  exact ⟨rfl, rfl⟩

/-- C3 (amended): when every display-name candidate is absent or empty
and an identifier is present, the legacy parser (`parsePolicyItem`)
names the record by the identifier, never the empty string; the
export-path mapper (`utcmInstanceToSyncPolicy`) instead leaves the
name empty. -/
theorem normalizer_name_fallback (fields : List (String × JValue))
    (category ident : String)
    (hdn : jsonStringField fields "displayName" = .ok "")
    (hn : jsonStringField fields "name" = .ok "")
    (hid : jsonStringField fields "id" = .ok ident)
    (hident : ident ≠ "")
    (inst : List (String × JValue)) (meta : UtcmResource)
    (h1 : stringField inst "DisplayName" = none)
    (h2 : stringField inst "displayName" = none)
    (h3 : stringField inst "Name" = none) :
    (∀ sp, parsePolicyItem (.obj fields) category = .ok sp →
      sp.policyName = ident ∧ sp.policyName ≠ "") ∧
    (utcmInstanceToSyncPolicy inst meta).policyName = "" := by
  constructor
  · intro sp h
    simp only [parsePolicyItem, objFieldsOf] at h
    rw [hid, hdn, hn] at h
    cases hdesc : jsonStringField fields "description" with
    | error e => rw [hdesc] at h; simp at h
    | ok vdesc =>
    cases hod : jsonStringField fields "@odata.type" with
    | error e => rw [hdesc, hod] at h; simp at h
    | ok vod =>
    cases hpl : jsonStringField fields "platforms" with
    | error e => rw [hdesc, hod, hpl] at h; simp at h
    | ok vpl =>
    cases hpt : jsonStringField fields "platformType" with
    | error e => rw [hdesc, hod, hpl, hpt] at h; simp at h
    | ok vpt =>
      rw [hdesc, hod, hpl, hpt] at h
      simp only [Except.ok.injEq] at h
      rw [← h]
      simp [hident]
  · simp [utcmInstanceToSyncPolicy, h1, h2, h3]

/-- Witness for `normalizer_name_fallback` at concrete inputs. -/
theorem normalizer_name_fallback_witness :
    (∀ sp, parsePolicyItem (.obj [("id", .str "xyz")]) "Compliance" = .ok sp →
      sp.policyName = "xyz" ∧ sp.policyName ≠ "") ∧
    (utcmInstanceToSyncPolicy [("Id", .str "ident7")]
      ⟨"microsoft.intune.examplePolicy", "Other", ""⟩).policyName = "" :=
  normalizer_name_fallback [("id", .str "xyz")] "Compliance" "xyz"
    rfl rfl rfl (by decide) [("Id", .str "ident7")]
    ⟨"microsoft.intune.examplePolicy", "Other", ""⟩ rfl rfl rfl

theorem find?_filter_key (keep : String → Bool) (k : String) :
    ∀ m : List (String × JValue),
      (m.filter (fun p => keep p.1)).find? (fun p => p.1 == k) =
        if keep k = true then m.find? (fun p => p.1 == k) else none := by
  intro m
  induction m with
  | nil => simp
  | cons p m ih =>
    by_cases hpk : p.1 = k
    · cases hkeep : keep k with
      | true => simp [List.filter_cons, List.find?_cons, hpk, hkeep]
      | false => simp [List.filter_cons, List.find?_cons, hpk, hkeep, ih]
    · have hbeq : (p.1 == k) = false := by
        simp [hpk]
      cases hkeep : keep p.1 with
      | true => simp [List.filter_cons, List.find?_cons, hkeep, hbeq, ih]
      | false => simp [List.filter_cons, hkeep, hbeq, ih]

theorem objLookup_filter (fields : List (String × JValue))
    (keep : String → Bool) (k : String) :
    objLookup (fields.filter (fun p => keep p.1)) k =
      if keep k = true then objLookup fields k else none := by
  unfold objLookup
  have hrev : (fields.filter (fun p => keep p.1)).reverse =
      fields.reverse.filter (fun p => keep p.1) := by
    rw [List.filter_reverse]
  rw [hrev, find?_filter_key keep k fields.reverse]
  cases hkeep : keep k <;> simp

/-- C5 counterexample: the promoted fields are retained in the settings
payload.  On the legacy path the `displayName` promoted to the record
name stays in the cleaned settings object; on the export path both the
`DisplayName` and the `Id` identifier stay. -/
theorem settings_promoted_fields_retained :
    objLookup (parseSettingsMap (buildSettingsJSON
      (.obj [("displayName", .str "n"), ("minLength", .num 4)]))) "displayName" =
      some (.str "n") ∧
    objLookup (parseSettingsMap (buildUTCMSettingsJSON
      [("DisplayName", .str "n"), ("Id", .str "i")])) "Id" = some (.str "i") := by
  exact ⟨rfl, rfl⟩

/-- C5 (amended): the settings payload equals the full instance with
only the fixed internal/meta keys removed — legacy path: any
`@odata`/`@microsoft`-prefixed key plus id, createdDateTime,
lastModifiedDateTime, version, roleScopeTagIds, creationSource; export
path: `@odata.type`, `@odata.context`, `Ensure`.  Every other field,
including the promoted display name and description (and the export
path identifier field), keeps its value. -/
theorem settings_payload_keys (fields inst : List (String × JValue)) (k : String) :
    objLookup (parseSettingsMap (buildSettingsJSON (.obj fields))) k =
      (if legacyKeep k = true then objLookup fields k else none) ∧
    objLookup (parseSettingsMap (buildUTCMSettingsJSON inst)) k =
      (if (!utcmSkipKey k) = true then objLookup inst k else none) := by
  constructor
  · show objLookup (fields.filter (fun p => legacyKeep p.1)) k = _
    exact objLookup_filter fields legacyKeep k
  · show objLookup (inst.filter (fun p => !utcmSkipKey p.1)) k = _
    exact objLookup_filter inst (fun x => !utcmSkipKey x) k

/-! Credential cache (token.go). -/

/-- Go `tokenCache` mutable state (token.go): cached token string and
expiry instant.  Instants are integers in seconds; the Go code works
in `time.Time`/`time.Duration`, which this order-isomorphically
models. -/
structure TokenCache where
  token : String
  expires : Int

/-- Go `tokenCache.Token` (token.go).  `now` is the current instant and
`fetch` the outcome a credential exchange would have (token and
`expires_in` seconds), so that the third component of the result
records whether a network exchange was performed.  Returns the cached
token when it is non-empty and expires more than the 2-minute safety
margin after `now`; otherwise performs the exchange and caches the
result. -/
def tokenCacheToken (now : Int) (fetch : Except String (String × Int))
    (tc : TokenCache) : Except String String × TokenCache × Bool :=
  if tc.token ≠ "" ∧ now < tc.expires - 120 then (.ok tc.token, tc, false)
  else
    match fetch with
    | .error e => (.error e, tc, true)
    | .ok (token, expiresIn) => (.ok token, ⟨token, now + expiresIn⟩, true)

/-- C8: with a non-empty cached token whose expiry is more than the
2-minute safety margin in the future, `Token` returns the cached token
without a credential exchange; two such calls within the margin return
the identical token string and perform no network call. -/
theorem tokenCache_cached_hit (tc : TokenCache) (now1 now2 : Int)
    (f1 f2 : Except String (String × Int))
    (htok : tc.token ≠ "")
    (h1 : now1 < tc.expires - 120) (h2 : now2 < tc.expires - 120) :
    tokenCacheToken now1 f1 tc = (.ok tc.token, tc, false) ∧
    tokenCacheToken now2 f2 (tokenCacheToken now1 f1 tc).2.1 =
      (.ok tc.token, tc, false) := by
  have e1 : tokenCacheToken now1 f1 tc = (.ok tc.token, tc, false) := by
    unfold tokenCacheToken
    rw [if_pos ⟨htok, h1⟩]
  refine ⟨e1, ?_⟩
  rw [e1]
  show tokenCacheToken now2 f2 tc = (.ok tc.token, tc, false)
  unfold tokenCacheToken
  rw [if_pos ⟨htok, h2⟩]

/-- Witness for `tokenCache_cached_hit` at concrete inputs. -/
theorem tokenCache_cached_hit_witness :
    tokenCacheToken 0 (.error "down") ⟨"tok", 1000⟩ =
      (.ok "tok", ⟨"tok", 1000⟩, false) ∧
    tokenCacheToken 10 (.error "down")
        (tokenCacheToken 0 (.error "down") ⟨"tok", 1000⟩).2.1 =
      (.ok "tok", ⟨"tok", 1000⟩, false) :=
  tokenCache_cached_hit ⟨"tok", 1000⟩ 0 10 (.error "down") (.error "down")
    (by decide) (by decide) (by decide)

/-! Activity log ring buffer (part_013). -/

/-- Go `ActivityEvent` (part_013); the timestamp is an integer
instant. -/
structure ActivityEvent where
  time : Int
  provider : String
  eventType : String
  message : String
  deriving DecidableEq

/-- Go `activityLog` (part_013): bounded event list (oldest first),
capacity, and monotonic sequence counter. -/
structure ActivityLog where
  events : List ActivityEvent
  capacity : Nat
  seq : Int

/-- Go `newActivityLog` (part_013). -/
def newActivityLog (capacity : Nat) : ActivityLog :=
  ⟨[], capacity, 0⟩

/-- Go `activityLog.Add` (part_013): evict the oldest event when at
capacity, then append.  (With capacity 0 the Go slice expression
`events[1:]` would panic on the first call; the server always
constructs the log with capacity 200.) -/
def activityAdd (al : ActivityLog) (e : ActivityEvent) : ActivityLog :=
  let evs := if al.events.length ≥ al.capacity then al.events.drop 1 else al.events
  ⟨evs ++ [e], al.capacity, al.seq + 1⟩

/-- Go `activityLog.Recent` (part_013): up to `n` most recent events,
newest first (`out[i] = events[total-1-i]`). -/
def activityRecent (al : ActivityLog) (n : Nat) : List ActivityEvent :=
  let total := al.events.length
  let m := min n total
  (List.range m).filterMap (fun i => al.events.get? (total - 1 - i))

theorem activityAdd_invariant (cap : Nat) (hcap : 1 ≤ cap) (log : ActivityLog)
    (hl : log.events.length ≤ cap) (hc : log.capacity = cap) (e : ActivityEvent) :
    (activityAdd log e).events.length ≤ cap ∧ (activityAdd log e).capacity = cap := by
  unfold activityAdd
  refine ⟨?_, hc⟩
  by_cases h : log.events.length ≥ log.capacity
  · simp only [h, if_pos]
    rw [List.length_append, List.length_drop]
    simp only [List.length_cons, List.length_nil]
    omega
  · simp only [h, if_neg, if_false]
    rw [List.length_append]
    simp only [List.length_cons, List.length_nil]
    rw [hc] at h
    omega

theorem activityFold_invariant (cap : Nat) (hcap : 1 ≤ cap) (es : List ActivityEvent) :
    ∀ log : ActivityLog, log.events.length ≤ cap → log.capacity = cap →
      (es.foldl activityAdd log).events.length ≤ cap ∧
      (es.foldl activityAdd log).capacity = cap := by
  induction es with
  | nil => intro log hl hc; exact ⟨hl, hc⟩
  | cons e es ih =>
    intro log hl hc
    obtain ⟨hl2, hc2⟩ := activityAdd_invariant cap hcap log hl hc e
    exact ih (activityAdd log e) hl2 hc2

theorem range_filterMap_get? {α : Type} (r : List α) :
    ∀ m, m ≤ r.length →
      (List.range m).filterMap (fun i => r.get? i) = r.take m := by
  intro m
  induction m with
  | zero => intro _; simp
  | succ m ih =>
    intro hm
    rw [List.range_succ, List.filterMap_append, ih (by omega), List.take_succ]
    have hg : r.get? m = some (r.get ⟨m, by omega⟩) := List.get?_eq_get (by omega)
    have hge : r[m]? = some (r.get ⟨m, by omega⟩) := by
      rw [← List.get?_eq_getElem?]
      exact hg
    simp [List.filterMap_cons, hg, hge]

theorem recent_eq_reverse_take (al : ActivityLog) (n : Nat) :
    activityRecent al n = al.events.reverse.take n := by
  unfold activityRecent
  have hmem : ∀ i < min n al.events.length,
      al.events.get? (al.events.length - 1 - i) = al.events.reverse.get? i := by
    intro i hi
    rw [List.get?_reverse]
    omega
  have hcongr : (List.range (min n al.events.length)).filterMap
        (fun i => al.events.get? (al.events.length - 1 - i)) =
      (List.range (min n al.events.length)).filterMap
        (fun i => al.events.reverse.get? i) := by
    apply List.filterMap_congr
    intro i hi
    rw [List.mem_range] at hi
    exact hmem i hi
  rw [hcongr, range_filterMap_get? al.events.reverse (min n al.events.length)
    (by rw [List.length_reverse]; omega)]
  have hs : ∀ k, al.events.length ≤ k →
      al.events.reverse.take k = al.events.reverse := fun k hk =>
    List.take_of_length_le (by rw [List.length_reverse]; exact hk)
  rcases Nat.le_total n al.events.length with h | h
  · rw [Nat.min_eq_left h]
  · rw [Nat.min_eq_right h, hs _ (le_refl _), hs _ h]

/-- C10: starting from an empty log of capacity at least one, any
sequence of `Add` calls keeps at most `capacity` events; `Add` at
capacity evicts exactly the oldest event and otherwise only appends;
and `Recent n` returns the `min n stored` most recent events newest
first, leaving the log unchanged (it is a pure read). -/
theorem activityLog_ring_buffer (cap : Nat) (hcap : 1 ≤ cap)
    (es : List ActivityEvent) (e : ActivityEvent) (n : Nat) :
    ((es.foldl activityAdd (newActivityLog cap)).events.length ≤ cap) ∧
    (∀ log : ActivityLog, log.capacity = cap → log.events.length = cap →
      (activityAdd log e).events = log.events.drop 1 ++ [e] ∧
      (activityAdd log e).events.length = cap) ∧
    (∀ log : ActivityLog, log.capacity = cap → log.events.length < cap →
      (activityAdd log e).events = log.events ++ [e]) ∧
    activityRecent (es.foldl activityAdd (newActivityLog cap)) n =
      (es.foldl activityAdd (newActivityLog cap)).events.reverse.take n ∧
    (activityRecent (es.foldl activityAdd (newActivityLog cap)) n).length =
      min n (es.foldl activityAdd (newActivityLog cap)).events.length := by
  refine ⟨?_, ?_, ?_, recent_eq_reverse_take _ n, ?_⟩
  · exact (activityFold_invariant cap hcap es (newActivityLog cap)
      (by simp [newActivityLog]) rfl).1
  · intro log hc hfull
    unfold activityAdd
    have h : log.events.length ≥ log.capacity := by omega
    constructor
    · simp only [h, if_pos]
    · simp only [h, if_pos]
      rw [List.length_append, List.length_drop]
      simp only [List.length_cons, List.length_nil]
      omega
  · intro log hc hlt
    unfold activityAdd
    have h : ¬ log.events.length ≥ log.capacity := by omega
    simp only [h, if_neg, if_false]
  · rw [recent_eq_reverse_take, List.length_take, List.length_reverse]

/-- Witness for `activityLog_ring_buffer` at concrete inputs. -/
theorem activityLog_ring_buffer_witness :
    (([⟨0, "p", "info", "m1"⟩, ⟨1, "p", "info", "m2"⟩, ⟨2, "p", "info", "m3"⟩]
        : List ActivityEvent).foldl activityAdd (newActivityLog 2)).events.length ≤ 2 :=
  (activityLog_ring_buffer 2 (by decide)
    [⟨0, "p", "info", "m1"⟩, ⟨1, "p", "info", "m2"⟩, ⟨2, "p", "info", "m3"⟩]
    ⟨3, "p", "info", "m4"⟩ 2).1

/-! Async export job driver: the polling wait loop (part_004,
`utcmWaitForSnapshot`). -/

/-- Outcome classification of the wait loop (part_004): terminal
success, terminal job failure, a poll transport error, context
cancellation, or the wall-clock timeout. -/
inductive WaitResult where
  | completed (status : String)
  | jobFailed
  | pollError (e : String)
  | cancelled
  | timedOut
  deriving DecidableEq

/-- Result of the wait loop plus its observable cost: the instant
(seconds after entry) at which it returned and how many status polls
it performed. -/
structure WaitOutcome where
  result : WaitResult
  finishTime : Nat
  pollCount : Nat
  deriving DecidableEq

/-- Loop body of Go `utcmWaitForSnapshot` (part_004), in seconds:
deadline 600 (10 minutes), poll interval 5.  Per iteration: deadline
check first; then the `select` on cancellation versus the 5-second
sleep (`ctxDone t` says whether the context is done during that wait);
then one poll (`poll n` is the n-th status read, an `Except` for a
transport error); `succeeded`/`partiallySuccessful` and `failed` are
terminal, every other status continues.  The Go loop is unbounded; the
`fuel` argument only bounds the recursion and `utcmWaitAux_isSome`
shows 122 units can never be exhausted, so the fuelled function is
extensionally the Go loop. -/
def utcmWaitAux (poll : Nat → Except String String) (ctxDone : Nat → Bool) :
    Nat → Nat → Nat → Option WaitOutcome
  | 0, _, _ => none
  | fuel + 1, t, n =>
    if t > 600 then some ⟨.timedOut, t, n⟩
    else if ctxDone t then some ⟨.cancelled, t, n⟩
    else
      match poll n with
      | .error e => some ⟨.pollError e, t + 5, n + 1⟩
      | .ok status =>
        if status = "succeeded" ∨ status = "partiallySuccessful" then
          some ⟨.completed status, t + 5, n + 1⟩
        else if status = "failed" then some ⟨.jobFailed, t + 5, n + 1⟩
        else utcmWaitAux poll ctxDone fuel (t + 5) (n + 1)

theorem utcmWaitAux_isSome (poll : Nat → Except String String)
    (ctxDone : Nat → Bool) :
    ∀ fuel t n, t ≤ 605 → 605 < 5 * fuel + t →
      (utcmWaitAux poll ctxDone fuel t n).isSome := by
  intro fuel
  induction fuel with
  | zero => intro t n h1 h2; omega
  | succ fuel ih =>
    intro t n h1 h2
    unfold utcmWaitAux
    by_cases ht : t > 600
    · simp [ht]
    · simp only [ht, if_false]
      by_cases hc : ctxDone t = true
      · simp [hc]
      · simp only [hc, if_false, Bool.false_eq_true]
        cases hp : poll n with
        | error e => simp
        | ok status =>
          by_cases hs1 : status = "succeeded" ∨ status = "partiallySuccessful"
          · simp [hs1]
          · simp only [hs1, if_false]
            by_cases hs2 : status = "failed"
            · simp [hs2]
            · simp only [hs2, if_false]
              exact ih (t + 5) (n + 1) (by omega) (by omega)

/-- Go `utcmWaitForSnapshot` (part_004) viewed through its polling
behaviour: run the loop from time 0 and poll 0. -/
def utcmWaitForSnapshot (poll : Nat → Except String String)
    (ctxDone : Nat → Bool) : WaitOutcome :=
  (utcmWaitAux poll ctxDone 122 0 0).getD ⟨.timedOut, 0, 0⟩

theorem utcmWaitAux_no_terminal (poll : Nat → Except String String)
    (ctxDone : Nat → Bool)
    (hpoll : ∀ k, ∃ s, poll k = .ok s ∧ s ≠ "succeeded" ∧
      s ≠ "partiallySuccessful" ∧ s ≠ "failed")
    (hctx : ∀ t, ctxDone t = false) :
    ∀ fuel m n, m ≤ 121 → 605 < 5 * fuel + 5 * m →
      utcmWaitAux poll ctxDone fuel (5 * m) n =
        some ⟨.timedOut, 605, n + (121 - m)⟩ := by
  intro fuel
  induction fuel with
  | zero => intro m n h1 h2; omega
  | succ fuel ih =>
    intro m n h1 h2
    unfold utcmWaitAux
    by_cases hm : m ≤ 120
    · have ht : ¬ (5 * m > 600) := by omega
      obtain ⟨s, hs, hns1, hns2, hns3⟩ := hpoll n
      simp only [ht, if_false, hctx (5 * m), Bool.false_eq_true, hs]
      have hterm : ¬ (s = "succeeded" ∨ s = "partiallySuccessful") := by
        rintro (h | h) <;> [exact hns1 h; exact hns2 h]
      simp only [hterm, if_false, hns3]
      have hstep : 5 * m + 5 = 5 * (m + 1) := by omega
      rw [hstep, ih (m + 1) (n + 1) (by omega) (by omega)]
      have : n + 1 + (121 - (m + 1)) = n + (121 - m) := by omega
      rw [this]
    · have hm121 : m = 121 := by omega
      subst hm121
      have ht : 5 * 121 > 600 := by omega
      simp only [ht, if_pos]
      have h605 : 5 * 121 = 605 := by omega
      have h0 : 121 - 121 = 0 := by omega
      rw [h605, h0, Nat.add_zero]

/-- C7: when the polled status never reaches a terminal state
(`succeeded`, `partiallySuccessful`, `failed`) and the context is
never cancelled, the wait loop terminates with a timeout-classified
result, returning at 605 s = the 10-minute deadline plus one 5-second
poll interval, after exactly 121 polls — all performed before the
deadline check fires, none after. -/
theorem utcmWait_timeout (poll : Nat → Except String String)
    (ctxDone : Nat → Bool)
    (hpoll : ∀ k, ∃ s, poll k = .ok s ∧ s ≠ "succeeded" ∧
      s ≠ "partiallySuccessful" ∧ s ≠ "failed")
    (hctx : ∀ t, ctxDone t = false) :
    (utcmWaitForSnapshot poll ctxDone).result = .timedOut ∧
    (utcmWaitForSnapshot poll ctxDone).finishTime ≤ 600 + 5 ∧
    (utcmWaitForSnapshot poll ctxDone).pollCount = 121 := by
  have h := utcmWaitAux_no_terminal poll ctxDone hpoll hctx 122 0 0
    (by omega) (by omega)
  have h5 : (5 : Nat) * 0 = 0 := by omega
  rw [h5] at h
  unfold utcmWaitForSnapshot
  rw [h]
  exact ⟨rfl, by decide, rfl⟩

/-- Witness for `utcmWait_timeout` at concrete inputs. -/
theorem utcmWait_timeout_witness :
    (utcmWaitForSnapshot (fun _ => .ok "running") (fun _ => false)).result =
      .timedOut ∧
    (utcmWaitForSnapshot (fun _ => .ok "running") (fun _ => false)).finishTime ≤
      600 + 5 ∧
    (utcmWaitForSnapshot (fun _ => .ok "running") (fun _ => false)).pollCount =
      121 :=
  utcmWait_timeout (fun _ => .ok "running") (fun _ => false)
    (fun k => ⟨"running", rfl, by decide, by decide, by decide⟩)
    (fun t => rfl)

/-! Export-job result download parsing (part_004,
`utcmDownloadSnapshot` and `parseRawSnapshotJSON`).  The decode
functions model `json.Unmarshal` into the respective Go target types;
key matching is exact (the Go ASCII case-insensitive fallback for struct
fields is never exercised by these payloads). -/

/-- Go `utcmSnapshotResourceGroup` (part_004). -/
structure UtcmResourceGroup where
  resourceType : String
  instances : List (List (String × JValue))

/-- Go `utcmSnapshotResult` (part_004). -/
structure UtcmSnapshotResult where
  resources : List UtcmResourceGroup

/-- Unmarshal into `map[string]interface{}`: object or null only. -/
def decodeObjMap : JValue → Option (List (String × JValue))
  | .obj fs => some fs
  | .null => some []
  | _ => none

/-- Unmarshal into `[]map[string]interface{}`: array of objects (or
null, giving a nil slice). -/
def decodeObjList : JValue → Option (List (List (String × JValue)))
  | .arr xs => xs.mapM decodeObjMap
  | .null => some []
  | _ => none

/-- Unmarshal one `utcmSnapshotResourceGroup`: `resourceType` must be
a string when present, `instances` a list of objects when present;
absent fields keep their zero values. -/
def decodeGroup : JValue → Option UtcmResourceGroup
  | .obj fs =>
    (match jsonStringField fs "resourceType",
           (match objLookup fs "instances" with
            | none => some []
            | some v => decodeObjList v) with
     | .ok rt, some insts => some ⟨rt, insts⟩
     | _, _ => none)
  | .null => some ⟨"", []⟩
  | _ => none

/-- Unmarshal into `[]utcmSnapshotResourceGroup`. -/
def decodeGroupList : JValue → Option (List UtcmResourceGroup)
  | .arr xs => xs.mapM decodeGroup
  | .null => some []
  | _ => none

/-- Unmarshal into `utcmSnapshotResult`: a JSON object whose optional
`resources` field lists the groups; any other keys are ignored, so an
object without `resources` decodes to an empty result without
error. -/
def decodeUtcmSnapshotResult : JValue → Option UtcmSnapshotResult
  | .obj fs =>
    (match objLookup fs "resources" with
     | none => some ⟨[]⟩
     | some v => (decodeGroupList v).map (fun gs => ⟨gs⟩))
  | .null => some ⟨[]⟩
  | _ => none

/-- Unmarshal into `map[string][]map[string]interface{}` (parse
attempt 2 target type). -/
def decodeStringGroupMap :
    JValue → Option (List (String × List (List (String × JValue))))
  | .obj fs => fs.mapM (fun p => (decodeObjList p.2).map (fun l => (p.1, l)))
  | .null => some []
  | _ => none

/-- Unmarshal into `struct { Value []map[string]interface{} }` (parse
attempt 3 target type). -/
def decodeValueCollection : JValue → Option (List (List (String × JValue)))
  | .obj fs =>
    (match objLookup fs "value" with
     | none => some []
     | some v => decodeObjList v)
  | .null => some []
  | _ => none

/-- Resource type of one attempt-3 item: `resourceType` string field,
else `@odata.type` string field, else "unknown" (Go type assertions,
so the empty string qualifies). -/
def itemResourceType (item : List (String × JValue)) : String :=
  match objLookup item "resourceType" with
  | some (.str rt) => rt
  | _ =>
    match objLookup item "@odata.type" with
    | some (.str rt) => rt
    | _ => "unknown"

/-- Grouping of attempt-3 items by resource type.  (Go ranges over a
map, so its group order is unspecified; the model keeps first-seen
order.) -/
def groupByType (items : List (List (String × JValue))) : List UtcmResourceGroup :=
  items.foldl (fun acc item =>
    let rt := itemResourceType item
    if acc.any (fun g => g.resourceType = rt) then
      acc.map (fun g =>
        if g.resourceType = rt then ⟨g.resourceType, g.instances ++ [item]⟩ else g)
    else acc ++ [⟨rt, [item]⟩]) []

/-- Go `parseRawSnapshotJSON` (part_004): attempt, in order, a
top-level array of resource groups, a map from resource type to
instance lists, and a Graph `value` collection grouped per item; each
attempt is used only when it decodes and yields non-empty data, and a
format error is returned when none does.  (Attempt 2 also inherits
the unspecified Go map order.) -/
def parseAttempt3 (data : JValue) : Except String UtcmSnapshotResult :=
  match decodeValueCollection data with
  | some items =>
    if items.length > 0 then .ok ⟨groupByType items⟩
    else .error "unrecognised snapshot format"
  | none => .error "unrecognised snapshot format"

def parseAttempt2 (data : JValue) : Except String UtcmSnapshotResult :=
  match decodeStringGroupMap data with
  | some entries =>
    if entries.length > 0 then
      .ok ⟨entries.map (fun p => ⟨p.1, p.2⟩)⟩
    else parseAttempt3 data
  | none => parseAttempt3 data

def parseRawSnapshotJSON (data : JValue) : Except String UtcmSnapshotResult :=
  match decodeGroupList data with
  | some groups => if groups.length > 0 then .ok ⟨groups⟩ else parseAttempt2 data
  | none => parseAttempt2 data

/-- Parsing stage of Go `utcmDownloadSnapshot` (part_004) on a fetched
payload: try the structured `utcmSnapshotResult` decode first and
return its result whenever the decode does not error — even when it
yields zero resource groups; only a decode error reaches the raw
fallback. -/
def utcmParseDownloaded (data : JValue) : Except String UtcmSnapshotResult :=
  match decodeUtcmSnapshotResult data with
  | some r => .ok r
  | none =>
    match parseRawSnapshotJSON data with
    | .ok r => .ok r
    | .error e => .error ("parse snapshot (tried structured + raw): " ++ e)

theorem groupByType_step_ne_nil (acc : List UtcmResourceGroup)
    (item : List (String × JValue)) (hacc : acc ≠ []) :
    (if acc.any (fun g => g.resourceType = itemResourceType item) then
      acc.map (fun g =>
        if g.resourceType = itemResourceType item then
          (⟨g.resourceType, g.instances ++ [item]⟩ : UtcmResourceGroup)
        else g)
     else acc ++ [⟨itemResourceType item, [item]⟩]) ≠ [] := by
  by_cases h : acc.any (fun g => g.resourceType = itemResourceType item) = true
  · simp only [h, if_pos]
    intro hmap
    exact hacc (List.map_eq_nil_iff.mp hmap)
  · simp only [h, if_false]
    intro happ
    have := List.append_eq_nil.mp happ
    exact absurd this.2 (by simp)

theorem groupByType_foldl_ne_nil (items : List (List (String × JValue))) :
    ∀ acc : List UtcmResourceGroup, acc ≠ [] →
      (items.foldl (fun acc item =>
        let rt := itemResourceType item
        if acc.any (fun g => g.resourceType = rt) then
          acc.map (fun g =>
            if g.resourceType = rt then ⟨g.resourceType, g.instances ++ [item]⟩
            else g)
        else acc ++ [⟨rt, [item]⟩]) acc) ≠ [] := by
  induction items with
  | nil => intro acc hacc; exact hacc
  | cons item items ih =>
    intro acc hacc
    exact ih _ (groupByType_step_ne_nil acc item hacc)

theorem groupByType_ne_nil (items : List (List (String × JValue)))
    (h : items ≠ []) : groupByType items ≠ [] := by
  cases items with
  | nil => exact absurd rfl h
  | cons item items =>
    unfold groupByType
    rw [List.foldl_cons]
    apply groupByType_foldl_ne_nil
    simp

theorem parseAttempt3_nonempty (j : JValue) (r : UtcmSnapshotResult)
    (h : parseAttempt3 j = .ok r) : r.resources ≠ [] := by
  unfold parseAttempt3 at h
  cases h1 : decodeValueCollection j with
  | some items =>
    rw [h1] at h
    by_cases hl : items.length > 0
    · simp only [hl, if_pos, Except.ok.injEq] at h
      rw [← h]
      exact groupByType_ne_nil items (by intro hn; rw [hn] at hl; simp at hl)
    · simp only [hl, if_false] at h
      exact absurd h (by simp)
  | none =>
    rw [h1] at h
    exact absurd h (by simp)

theorem parseAttempt2_nonempty (j : JValue) (r : UtcmSnapshotResult)
    (h : parseAttempt2 j = .ok r) : r.resources ≠ [] := by
  unfold parseAttempt2 at h
  cases h1 : decodeStringGroupMap j with
  | some entries =>
    rw [h1] at h
    by_cases hl : entries.length > 0
    · simp only [hl, if_pos, Except.ok.injEq] at h
      rw [← h]
      intro hnil
      rw [List.map_eq_nil_iff] at hnil
      rw [hnil] at hl
      simp at hl
    · simp only [hl, if_false] at h
      exact parseAttempt3_nonempty j r h
  | none =>
    rw [h1] at h
    exact parseAttempt3_nonempty j r h

/-- C4 counterexample: a payload in the flat-map shape (attempt 2) is
decoded by the structured parse as an object with no `resources` key,
so the download path returns an empty result without error and never
reaches the fallback strategies — even though the raw parser applied
to the very same payload yields the non-empty attempt-2 result. -/
theorem utcmDownload_swallows_flat_map :
    utcmParseDownloaded
      (.obj [("microsoft.intune.examplePolicy", .arr [.obj [("x", .num 1)]])]) =
      .ok ⟨[]⟩ ∧
    parseRawSnapshotJSON
      (.obj [("microsoft.intune.examplePolicy", .arr [.obj [("x", .num 1)]])]) =
      .ok ⟨[⟨"microsoft.intune.examplePolicy", [[("x", .num 1)]]⟩]⟩ := by
  exact ⟨rfl, rfl⟩

/-- C4 (amended): the raw fallback parser tries its three strategies
in a fixed order, uses the first that yields non-empty data and
errors when none does — so a raw-parser success is never empty.  The
download path, however, runs the structured decode first and returns
whatever it produces whenever it does not error; a JSON object
without a `resources` key therefore comes back as an empty result
without consulting the later strategies. -/
theorem parseRaw_first_nonempty :
    (∀ (j : JValue) (r : UtcmSnapshotResult),
      parseRawSnapshotJSON j = .ok r → r.resources ≠ []) ∧
    (∀ fs : List (String × JValue), objLookup fs "resources" = none →
      utcmParseDownloaded (.obj fs) = .ok ⟨[]⟩) := by
  constructor
  · intro j r h
    unfold parseRawSnapshotJSON at h
    cases h1 : decodeGroupList j with
    | some groups =>
      rw [h1] at h
      by_cases hg : groups.length > 0
      · simp only [hg, if_pos, Except.ok.injEq] at h
        rw [← h]
        intro hnil
        simp only at hnil
        rw [hnil] at hg
        simp at hg
      · simp only [hg, if_false] at h
        exact parseAttempt2_nonempty j r h
    | none =>
      rw [h1] at h
      exact parseAttempt2_nonempty j r h
  · intro fs hres
    unfold utcmParseDownloaded
    simp only [decodeUtcmSnapshotResult, hres]

/-- Witness for `parseRaw_first_nonempty` at concrete inputs. -/
theorem parseRaw_first_nonempty_witness :
    (⟨[⟨"t", [[]]⟩]⟩ : UtcmSnapshotResult).resources ≠ [] ∧
    utcmParseDownloaded (.obj [("value", .arr [.obj []])]) = .ok ⟨[]⟩ :=
  ⟨parseRaw_first_nonempty.1
      (.arr [.obj [("resourceType", .str "t"), ("instances", .arr [.obj []])]])
      ⟨[⟨"t", [[]]⟩]⟩ rfl,
   parseRaw_first_nonempty.2 [("value", .arr [.obj []])] rfl⟩

/-! Snapshot capture orchestration (policies.go `runSnapshotCapture`,
part_005 `SyncPolicies`/`syncPoliciesLegacy`) and restart recovery
(server.go `StartBackgroundJobs`). -/

/-- Go `policyEndpoint` (part_005). -/
structure PolicyEndpoint where
  category : String
  path : String
  fullPath : String
  beta : Bool
  settings : Bool

/-- Go `policyEndpoints` (part_005): the fixed list of legacy Graph
policy collection endpoints. -/
def policyEndpoints : List PolicyEndpoint :=
  [⟨"Compliance Policies", "deviceCompliancePolicies", "", false, false⟩,
   ⟨"Compliance Policies (Settings Catalog)", "compliancePolicies", "", true, true⟩,
   ⟨"Compliance Scripts", "deviceComplianceScripts", "", true, false⟩,
   ⟨"Configuration Profiles", "deviceConfigurations", "", false, false⟩,
   ⟨"Settings Catalog", "configurationPolicies", "", true, true⟩,
   ⟨"Group Policy (Admin Templates)", "groupPolicyConfigurations", "", true, false⟩,
   ⟨"Endpoint Security", "intents", "", true, false⟩,
   ⟨"Security Baselines", "templates", "", true, false⟩,
   ⟨"App Protection", "", "deviceAppManagement/managedAppPolicies", true, false⟩,
   ⟨"PowerShell Scripts", "deviceManagementScripts", "", true, false⟩,
   ⟨"Shell Scripts (macOS)", "deviceShellScripts", "", true, false⟩,
   ⟨"Health Scripts (Remediations)", "deviceHealthScripts", "", true, false⟩,
   ⟨"Custom Attribute Scripts", "deviceCustomAttributeShellScripts", "", true, false⟩,
   ⟨"Enrollment Configurations", "deviceEnrollmentConfigurations", "", false, false⟩,
   ⟨"Autopilot Profiles", "windowsAutopilotDeploymentProfiles", "", true, false⟩,
   ⟨"Windows Update Policies", "windowsQualityUpdatePolicies", "", true, false⟩,
   ⟨"Hardware Configurations", "hardwareConfigurations", "", true, false⟩,
   ⟨"Reusable Policy Settings", "reusablePolicySettings", "", true, false⟩]

/-- Environment of one capture attempt: whether the shared context is
cancelled (`ctx.Err() != nil`) while the capture runs, the outcome of
the UTCM export path (`SyncPoliciesUTCM`), and the outcome each legacy
endpoint fetch (`fetchPolicyEndpoint`) would have.  Network calls made
under a cancelled context fail, which a theorem hypothesis or concrete
instantiation expresses by making these outcomes errors. -/
structure CaptureEnv where
  ctxCancelled : Bool
  utcmResult : Except String (List SyncPolicy)
  endpointFetch : PolicyEndpoint → Except String (List SyncPolicy)

/-- Go `syncPoliciesLegacy` (part_005): iterate the fixed endpoint
list, log-and-skip any per-endpoint error, and return the accumulated
items — never an error. -/
def syncPoliciesLegacy (env : CaptureEnv) : Except String (List SyncPolicy) :=
  .ok (policyEndpoints.foldl (fun all ep =>
    match env.endpointFetch ep with
    | .ok items => all ++ items
    | .error _ => all) [])

/-- Go `SyncPolicies` (part_005): prefer the UTCM snapshot; fall back
to the legacy per-endpoint sync when it errors or yields zero
policies. -/
def syncPolicies (env : CaptureEnv) : Except String (List SyncPolicy) :=
  match env.utcmResult with
  | .ok ps => if ps.length > 0 then .ok ps else syncPoliciesLegacy env
  | .error _ => syncPoliciesLegacy env

/-- Snapshot record (models.PolicySnapshot restricted to identity,
status and status message). -/
structure Snapshot where
  id : String
  status : String
  statusMessage : String
  deriving DecidableEq

/-- Go `runSnapshotCapture` (policies.go), final snapshot state: on a
sync error with the context cancelled, mark `error` with the
"interrupted" message; on any other sync error, mark `error` with
that cause; on success, store the items and mark `complete`.  (The
store calls `UpdateSnapshotStatus`/`InsertItem`/`UpdateSnapshotCounts`
are persistence-contract plumbing, modelled as field updates.) -/
def runSnapshotCapture (env : CaptureEnv) (snap : Snapshot) : Snapshot :=
  match syncPolicies env with
  | .error e =>
    if env.ctxCancelled then
      { snap with status := "error", statusMessage := "interrupted — server was stopped" }
    else
      { snap with status := "error", statusMessage := e }
  | .ok _ => { snap with status := "complete", statusMessage := "" }

/-- Capture environment of a shutdown firing mid-capture: the context
is cancelled, so the UTCM path and every legacy endpoint fetch fail
with the context error. -/
def interruptedEnv : CaptureEnv :=
  { ctxCancelled := true
    utcmResult := .error "context canceled"
    endpointFetch := fun _ => .error "context canceled" }

/-- C2 failing-input evaluation: a capture interrupted by shutdown
during the legacy fallback ends `complete` with an empty message —
the per-endpoint loop swallows the cancellation errors, returns zero
items without error, and `runSnapshotCapture` never sees a failure to
classify, contradicting the claimed `error`/"interrupted" outcome. -/
theorem capture_interrupted_marked_complete :
    interruptedEnv.ctxCancelled = true ∧
    (runSnapshotCapture interruptedEnv ⟨"snap1", "capturing", ""⟩).status = "complete" ∧
    (runSnapshotCapture interruptedEnv ⟨"snap1", "capturing", ""⟩).status ≠ "error" ∧
    strContains (runSnapshotCapture interruptedEnv ⟨"snap1", "capturing", ""⟩).statusMessage
      "interrupted" = false := by
  exact ⟨rfl, rfl, by decide, rfl⟩

/-- Snapshot store sweep at startup.  Modelled from the spec:
`PolicyStore.RecoverStaleCapturing` belongs to the persistence layer,
whose source is not among the provided files (only its caller in
server.go is); per the spec it transitions every snapshot still in
`capturing` state to `error` with the given status message. -/
def recoverStaleCapturing (msg : String) (db : List Snapshot) : List Snapshot :=
  db.map (fun s =>
    if s.status = "capturing" then { s with status := "error", statusMessage := msg }
    else s)

/-- Go `Server.StartBackgroundJobs` (server.go): sweep stale
`capturing` snapshots to `error` with the "interrupted — server was
stopped" message, then launch the recurring work.  `main.go` calls it
synchronously before the HTTP listener starts serving, and new
captures are only triggered by HTTP handlers, so the sweep completes
before any new capture work can start. -/
def startBackgroundJobs (db : List Snapshot) : List Snapshot :=
  recoverStaleCapturing "interrupted — server was stopped" db

/-- C6: after the restart sweep, no snapshot from the prior run is in
`capturing` state: each formerly capturing snapshot is now `error`
with a message containing "interrupted", and all others are
untouched. -/
theorem restart_sweeps_stale_capturing (db : List Snapshot) :
    (∀ s ∈ startBackgroundJobs db, s.status ≠ "capturing") ∧
    (∀ s ∈ db, s.status = "capturing" →
      (⟨s.id, "error", "interrupted — server was stopped"⟩ : Snapshot) ∈
        startBackgroundJobs db) ∧
    strContains "interrupted — server was stopped" "interrupted" = true ∧
    (∀ s ∈ db, s.status ≠ "capturing" → s ∈ startBackgroundJobs db) := by
  refine ⟨?_, ?_, by decide, ?_⟩
  · intro s hs
    unfold startBackgroundJobs recoverStaleCapturing at hs
    rw [List.mem_map] at hs
    obtain ⟨t, ht, rfl⟩ := hs
    by_cases hc : t.status = "capturing"
    · simp only [hc, if_pos]
      intro h
      exact absurd h (by simp)
    · simp only [hc, if_neg, if_false]
      exact hc
  · intro s hs hc
    unfold startBackgroundJobs recoverStaleCapturing
    have : (fun t : Snapshot =>
        if t.status = "capturing" then
          { t with status := "error", statusMessage := "interrupted — server was stopped" }
        else t) s =
        (⟨s.id, "error", "interrupted — server was stopped"⟩ : Snapshot) := by
      simp only [hc, if_pos]
    rw [← this]
    exact List.mem_map_of_mem _ hs
  · intro s hs hc
    unfold startBackgroundJobs recoverStaleCapturing
    have : (fun t : Snapshot =>
        if t.status = "capturing" then
          { t with status := "error", statusMessage := "interrupted — server was stopped" }
        else t) s = s := by
      simp only [hc, if_neg, if_false]
    rw [← this]
    exact List.mem_map_of_mem _ hs

/-- Witness for `restart_sweeps_stale_capturing` at a concrete
database state. -/
theorem restart_sweeps_stale_capturing_witness :
    (∀ s ∈ startBackgroundJobs
        [⟨"a", "capturing", ""⟩, ⟨"b", "complete", ""⟩],
      s.status ≠ "capturing") ∧
    (⟨"a", "error", "interrupted — server was stopped"⟩ : Snapshot) ∈
      startBackgroundJobs [⟨"a", "capturing", ""⟩, ⟨"b", "complete", ""⟩] :=
  ⟨(restart_sweeps_stale_capturing
      [⟨"a", "capturing", ""⟩, ⟨"b", "complete", ""⟩]).1,
   (restart_sweeps_stale_capturing
      [⟨"a", "capturing", ""⟩, ⟨"b", "complete", ""⟩]).2.1
      ⟨"a", "capturing", ""⟩ (by simp) rfl⟩

end Moe
